import Mathlib

set_option maxHeartbeats 1000000

namespace SyftExtras

/-! Verification of the syft-extras core against its specification.

The repository ships the documentation of `syft-core`, `syft-rpc`,
`syft-event` and `syft-http-bridge`; the Python modules themselves are
not part of the source tree.  The definitions below are therefore
shallow embeddings modelled from the specification and the package
documentation, as indicated on each definition. -/

/-! ### Permissions engine (`syft-core`) -/

/-- Modelled from the spec: glob matching of one path segment
(`syft_core/permissions.py` is absent from the tree).  `*` matches any
run of characters within the segment; other characters match
literally. -/
def segMatch : List Char → List Char → Bool
  | [], [] => true
  | [], _ :: _ => false
  | '*' :: ps, [] => segMatch ps []
  | '*' :: ps, c :: cs => segMatch ps (c :: cs) || segMatch ('*' :: ps) cs
  | _ :: _, [] => false
  | p :: ps, c :: cs => p == c && segMatch ps cs
termination_by ps s => (ps.length, s.length)

/-- Modelled from the spec: glob matching of a relative path, segment
by segment.  A `**` segment matches zero or more whole segments. -/
def globMatch : List (List Char) → List (List Char) → Bool
  | [], [] => true
  | [], _ :: _ => false
  | p :: ps, [] => if p = ['*', '*'] then globMatch ps [] else false
  | p :: ps, s :: ss =>
      if p = ['*', '*'] then globMatch ps (s :: ss) || globMatch (p :: ps) ss
      else segMatch p s && globMatch ps ss
termination_by ps s => (ps.length, s.length)

/-- Modelled from the spec: the four-tier access map of a permission
rule; each tier carries the list of principals it names (the wildcard
principal is the literal string `*`). -/
structure AccessMap where
  read : List String
  create : List String
  write : List String
  admin : List String
deriving DecidableEq, Repr

/-- Modelled from the spec: one rule of a `syft.pub.yaml` policy file:
a glob pattern, an access map, and an allow flag. -/
structure Rule where
  pattern : String
  access : AccessMap
  allow : Bool
deriving DecidableEq, Repr

/-- Modelled from the spec: a parsed `syft.pub.yaml` policy file: a
terminal flag (default false) and an ordered rule list. -/
structure Policy where
  terminal : Bool
  rules : List Rule
deriving DecidableEq, Repr

/-- The computed permission tuple for one (principal, path) query. -/
structure Perm where
  read : Bool
  create : Bool
  write : Bool
  admin : Bool
deriving DecidableEq, Repr

/-- A principal is listed in a tier's entry when it appears verbatim or
the wildcard `*` appears. -/
def listedIn (entries : List String) (principal : String) : Bool :=
  entries.contains principal || entries.contains "*"

/-- Split a glob pattern into its segments. -/
def patSegs (pat : String) : List (List Char) :=
  (pat.splitOn "/").map String.toList

/-- Modelled from the spec: evaluating one rule against the target path
relative to the policy file's directory.  If the glob matches, every
tier that lists the principal (or `*`) is set to the rule's allow
flag; unmatched rules leave the accumulator unchanged. -/
def applyRule (principal : String) (rel : List (List Char)) (acc : Perm) (r : Rule) : Perm :=
  if globMatch (patSegs r.pattern) rel then
    { read := if listedIn r.access.read principal then r.allow else acc.read
      create := if listedIn r.access.create principal then r.allow else acc.create
      write := if listedIn r.access.write principal then r.allow else acc.write
      admin := if listedIn r.access.admin principal then r.allow else acc.admin }
  else acc

/-- Evaluate all rules of one policy file in declared order. -/
def applyPolicy (principal : String) (rel : List (List Char)) (acc : Perm) (pol : Policy) : Perm :=
  pol.rules.foldl (applyRule principal rel) acc

/-- The policy files found while ascending from the target path to the
datasites root, ordered root-downward and indexed by depth: entry `d`
is the (optional) policy file in the directory made of the first `d`
segments of the target path. -/
abbrev PolicyChain := List (Option Policy)

/-- Annotate each present policy file with its depth. -/
def annotate : Nat → PolicyChain → List (Nat × Policy)
  | _, [] => []
  | d, none :: rest => annotate (d + 1) rest
  | d, some p :: rest => (d, p) :: annotate (d + 1) rest

/-- Modelled from the spec: the terminal cut.  Walking root-downward,
the deepest policy file carrying `terminal: true` halts inheritance:
only it and the policies below it contribute; every ancestor policy
above it is discarded. -/
def cutTerminal : List (Nat × Policy) → List (Nat × Policy)
  | [] => []
  | x :: xs => if xs.any (fun y => y.2.terminal) then cutTerminal xs else x :: xs

/-- Fold the contributing policies, root-downward, over the empty
permission; each policy sees the target path relative to its own
directory. -/
def evalChain (principal : String) (path : List String) (ps : List (Nat × Policy)) : Perm :=
  ps.foldl
    (fun acc dp => applyPolicy principal ((path.drop dp.1).map String.toList) acc dp.2)
    ⟨false, false, false, false⟩

/-- Modelled from the spec: the permission hierarchy closure
(admin ⇒ write ⇒ create ⇒ read). -/
def hierarchyClosure (p : Perm) : Perm :=
  { read := p.read || p.create || p.write || p.admin
    create := p.create || p.write || p.admin
    write := p.write || p.admin
    admin := p.admin }

/-- Modelled from the spec: the owner override.  The owner of the
datasite subtree (first path component under `datasites/`) holds full
access unconditionally ("Owner always has full access"). -/
def ownerOverride (principal : String) (path : List String) (p : Perm) : Perm :=
  if path.head? = some principal then { p with admin := true } else p

/-- Modelled from the spec: `get_computed_permission` — collect the
policy chain, apply the terminal cut, evaluate rules root-downward,
apply the owner override and close under the tier hierarchy. -/
def get_computed_permission (principal : String) (path : List String)
    (chain : PolicyChain) : Perm :=
  hierarchyClosure (ownerOverride principal path (evalChain principal path
    (cutTerminal (annotate 0 chain))))

theorem annotate_append (d : Nat) (xs ys : PolicyChain) :
    annotate d (xs ++ ys) = annotate d xs ++ annotate (d + xs.length) ys := by
  induction xs generalizing d with
  | nil => simp [annotate]
  | cons x rest ih =>
    have harg : d + 1 + rest.length = d + (rest.length + 1) := by omega
    cases x with
    | none =>
      show annotate (d + 1) (rest ++ ys)
          = annotate (d + 1) rest ++ annotate (d + (rest.length + 1)) ys
      rw [ih (d + 1), harg]
    | some p =>
      show (d, p) :: annotate (d + 1) (rest ++ ys)
          = ((d, p) :: annotate (d + 1) rest) ++ annotate (d + (rest.length + 1)) ys
      rw [List.cons_append, ih (d + 1), harg]

theorem cutTerminal_cons_of_any (x : Nat × Policy) (xs : List (Nat × Policy))
    (h : xs.any (fun y => y.2.terminal) = true) :
    cutTerminal (x :: xs) = cutTerminal xs := by
  simp only [cutTerminal, h, if_true]

theorem cutTerminal_append (pre suf : List (Nat × Policy))
    (h : ∃ y ∈ suf, y.2.terminal = true) :
    cutTerminal (pre ++ suf) = cutTerminal suf := by
  induction pre with
  | nil => rfl
  | cons x rest ih =>
    have hany : (rest ++ suf).any (fun y => y.2.terminal) = true := by
      obtain ⟨y, hy, hterm⟩ := h
      exact List.any_eq_true.mpr ⟨y, List.mem_append_right _ hy, hterm⟩
    rw [List.cons_append, cutTerminal_cons_of_any x (rest ++ suf) hany, ih]

/-- C1: Terminal-flag inheritance cut — if the policy file at depth L on
the chain has `terminal: true`, the computed permission depends only on
the policy files at depth L and below: any two chains agreeing from
depth L downward compute the same permission, however the shallower
entries are changed or removed. -/
theorem C1_terminal_flag_cut (principal : String) (path : List String)
    (c1 c2 : PolicyChain) (L : Nat) (p : Policy)
    (hterm : p.terminal = true)
    (hL : c1.get? L = some (some p))
    (hsuf : c1.drop L = c2.drop L) :
    get_computed_permission principal path c1 = get_computed_permission principal path c2 := by
  have hlen1 : L < c1.length := List.get?_eq_some.mp hL |>.1
  have hdrop1 : (c1.drop L).get? 0 = some (some p) := by
    rw [List.get?_drop]; simpa using hL
  have hdrop2 : (c2.drop L).get? 0 = some (some p) := by rw [← hsuf]; exact hdrop1
  have hlen2 : L < c2.length := by
    have h0 : 0 < (c2.drop L).length := List.get?_eq_some.mp hdrop2 |>.1
    rw [List.length_drop] at h0
    omega
  have key : ∀ c : PolicyChain, L < c.length → (c.drop L).get? 0 = some (some p) →
      cutTerminal (annotate 0 c) = cutTerminal (annotate L (c.drop L)) := by
    intro c hlen hdrop
    have hsplit : c = c.take L ++ c.drop L := (List.take_append_drop L c).symm
    have htake : (c.take L).length = L := by
      rw [List.length_take]; omega
    have hmem : ∃ y ∈ annotate L (c.drop L), y.2.terminal = true := by
      cases hd : c.drop L with
      | nil => rw [hd] at hdrop; simp at hdrop
      | cons o rest =>
        rw [hd] at hdrop
        simp only [List.get?] at hdrop
        cases hdrop
        exact ⟨(L, p), by simp [annotate], hterm⟩
    conv_lhs => rw [hsplit]
    rw [annotate_append, htake, Nat.zero_add]
    exact cutTerminal_append _ _ hmem
  unfold get_computed_permission
  rw [key c1 hlen1 hdrop1, key c2 hlen2 hdrop2, hsuf]

/-- A concrete instance of the terminal cut: a terminal policy at depth
1 makes the root-level policy irrelevant. -/
theorem C1_terminal_flag_cut_witness :
    get_computed_permission "bob@example.com" ["alice@example.com", "private", "secrets.txt"]
        [some ⟨false, [⟨"**", ⟨["*"], [], [], []⟩, true⟩]⟩, some ⟨true, []⟩]
      = get_computed_permission "bob@example.com" ["alice@example.com", "private", "secrets.txt"]
        [none, some ⟨true, []⟩] :=
  C1_terminal_flag_cut "bob@example.com" ["alice@example.com", "private", "secrets.txt"]
    [some ⟨false, [⟨"**", ⟨["*"], [], [], []⟩, true⟩]⟩, some ⟨true, []⟩]
    [none, some ⟨true, []⟩] 1 ⟨true, []⟩ rfl rfl rfl

/-- The tier hierarchy holds in a permission tuple when admin implies
write, write implies create and create implies read. -/
def tierMonotone (p : Perm) : Bool :=
  (!p.admin || p.write) && (!p.write || p.create) && (!p.create || p.read)

/-- C2: Permission tier monotonicity — every permission computed by the
engine satisfies the hierarchy closure admin ⇒ write ⇒ create ⇒ read,
for every policy configuration, principal and path. -/
theorem C2_tier_monotonicity (principal : String) (path : List String)
    (chain : PolicyChain) :
    tierMonotone (get_computed_permission principal path chain) = true := by
  have h : ∀ q : Perm, tierMonotone (hierarchyClosure q) = true := by
    intro q
    cases q with
    | mk r c w a => cases r <;> cases c <;> cases w <;> cases a <;> rfl
  exact h _

/-! ### Protocol codec (`syft-rpc` records and `syft-http-bridge` envelopes) -/

/-- Byte strings are lists of byte values. -/
abbrev Bytes := List Nat

/-- Big-endian base-256 digits of a natural number (empty for 0). -/
def natBytesBE (n : Nat) : Bytes :=
  if h : n = 0 then []
  else natBytesBE (n / 256) ++ [n % 256]
termination_by n
decreasing_by exact Nat.div_lt_self (Nat.pos_of_ne_zero h) (by norm_num)

/-- Recover a natural number from its big-endian base-256 digits. -/
def fromBytesBE (bs : Bytes) : Nat :=
  bs.foldl (fun acc d => acc * 256 + d) 0

theorem foldl_natBytesBE (n : Nat) :
    ∀ acc, (natBytesBE n).foldl (fun a d => a * 256 + d) acc
      = acc * 256 ^ (natBytesBE n).length + n := by
  induction n using Nat.strong_induction_on with
  | _ n ih =>
    intro acc
    rw [natBytesBE]
    by_cases h : n = 0
    · simp [h]
    · rw [dif_neg h, List.foldl_append, List.length_append]
      simp only [List.foldl_cons, List.foldl_nil, List.length_cons, List.length_nil]
      rw [ih (n / 256) (Nat.div_lt_self (Nat.pos_of_ne_zero h) (by norm_num)) acc]
      have hdm : n / 256 * 256 + n % 256 = n := by omega
      calc (acc * 256 ^ (natBytesBE (n / 256)).length + n / 256) * 256 + n % 256
          = acc * (256 ^ (natBytesBE (n / 256)).length * 256)
              + (n / 256 * 256 + n % 256) := by ring
        _ = acc * 256 ^ ((natBytesBE (n / 256)).length + (0 + 1)) + n := by
              rw [hdm, pow_succ]

theorem fromBytesBE_natBytesBE (n : Nat) : fromBytesBE (natBytesBE n) = n := by
  have := foldl_natBytesBE n 0
  simpa [fromBytesBE] using this

/-- Length-prefixed encoding of a natural number: a digit-count byte
followed by the big-endian digits.  Modelled from the spec: records are
"a length-prefixed sequence of fields in fixed order". -/
def encNat (n : Nat) : Bytes :=
  (natBytesBE n).length :: natBytesBE n

/-- Decode a length-prefixed natural number, returning it and the
remaining bytes. -/
def decNat : Bytes → Option (Nat × Bytes)
  | [] => none
  | k :: rest =>
      if k ≤ rest.length then some (fromBytesBE (rest.take k), rest.drop k) else none

theorem decNat_encNat (n : Nat) (bs : Bytes) :
    decNat (encNat n ++ bs) = some (n, bs) := by
  simp only [encNat, List.cons_append, decNat]
  rw [if_pos (by rw [List.length_append]; omega)]
  rw [List.take_left' rfl, List.drop_left' rfl, fromBytesBE_natBytesBE]

/-- Length-prefixed encoding of an opaque byte string. -/
def encBytes (b : Bytes) : Bytes :=
  encNat b.length ++ b

/-- Decode a length-prefixed byte string. -/
def decBytes (bs : Bytes) : Option (Bytes × Bytes) :=
  match decNat bs with
  | some (n, rest) => if n ≤ rest.length then some (rest.take n, rest.drop n) else none
  | none => none

theorem decBytes_encBytes (b bs : Bytes) :
    decBytes (encBytes b ++ bs) = some (b, bs) := by
  simp only [encBytes, List.append_assoc, decBytes, decNat_encNat]
  rw [if_pos (by rw [List.length_append]; omega)]
  rw [List.take_left' rfl, List.drop_left' rfl]

/-- A header entry is a (name, value) pair of byte strings; order and
duplicates are preserved by encoding them as a counted list. -/
def encPair (p : Bytes × Bytes) : Bytes :=
  encBytes p.1 ++ encBytes p.2

/-- Decode one (name, value) pair. -/
def decPair (bs : Bytes) : Option ((Bytes × Bytes) × Bytes) :=
  match decBytes bs with
  | some (a, r1) =>
      match decBytes r1 with
      | some (b, r2) => some ((a, b), r2)
      | none => none
  | none => none

theorem decPair_encPair (p : Bytes × Bytes) (bs : Bytes) :
    decPair (encPair p ++ bs) = some (p, bs) := by
  simp [encPair, decPair, List.append_assoc, decBytes_encBytes]

/-- Decode exactly `n` consecutive pairs. -/
def decPairs : Nat → Bytes → Option (List (Bytes × Bytes) × Bytes)
  | 0, bs => some ([], bs)
  | n + 1, bs =>
      match decPair bs with
      | some (p, rest) =>
          match decPairs n rest with
          | some (ps, rest2) => some (p :: ps, rest2)
          | none => none
      | none => none

/-- A counted list of pairs: element count then the elements. -/
def encPairList (l : List (Bytes × Bytes)) : Bytes :=
  encNat l.length ++ (l.map encPair).flatten

/-- Decode a counted list of pairs. -/
def decPairList (bs : Bytes) : Option (List (Bytes × Bytes) × Bytes) :=
  match decNat bs with
  | some (n, rest) => decPairs n rest
  | none => none

theorem decPairs_enc (l : List (Bytes × Bytes)) (bs : Bytes) :
    decPairs l.length ((l.map encPair).flatten ++ bs) = some (l, bs) := by
  induction l with
  | nil => simp [decPairs]
  | cons p rest ih =>
    simp only [List.map_cons, List.flatten_cons, List.length_cons, List.append_assoc,
      decPairs, decPair_encPair, ih]

theorem decPairList_enc (l : List (Bytes × Bytes)) (bs : Bytes) :
    decPairList (encPairList l ++ bs) = some (l, bs) := by
  simp only [encPairList, List.append_assoc, decPairList, decNat_encNat, decPairs_enc]

/-- Modelled from the spec: the HTTP request envelope of the bridge
(`syft_http_bridge/serde.py` is absent from the tree): method, URL
(including query), headers as an ordered list allowing duplicates,
opaque body bytes and the extensions bag. -/
structure HttpRequestEnv where
  method : Bytes
  url : Bytes
  headers : List (Bytes × Bytes)
  body : Bytes
  extensions : List (Bytes × Bytes)
deriving DecidableEq, Repr

/-- Modelled from the spec: the HTTP response envelope: status code,
reason phrase, headers and opaque body bytes. -/
structure HttpResponseEnv where
  status_code : Nat
  reason : Bytes
  headers : List (Bytes × Bytes)
  body : Bytes
deriving DecidableEq, Repr

/-- Serialize an HTTP request envelope into the self-describing binary
framing (fields in fixed order, each length-prefixed). -/
def serialize_request (r : HttpRequestEnv) : Bytes :=
  encBytes r.method ++ encBytes r.url ++ encPairList r.headers ++ encBytes r.body
    ++ encPairList r.extensions

/-- Parse an HTTP request envelope; unknown trailing bytes are
tolerated for forward compatibility. -/
def deserialize_request (bs : Bytes) : Option HttpRequestEnv :=
  match decBytes bs with
  | some (m, r1) =>
      match decBytes r1 with
      | some (u, r2) =>
          match decPairList r2 with
          | some (hs, r3) =>
              match decBytes r3 with
              | some (b, r4) =>
                  match decPairList r4 with
                  | some (ex, _) => some ⟨m, u, hs, b, ex⟩
                  | none => none
              | none => none
          | none => none
      | none => none
  | none => none

/-- Serialize an HTTP response envelope. -/
def serialize_response (r : HttpResponseEnv) : Bytes :=
  encNat r.status_code ++ encBytes r.reason ++ encPairList r.headers ++ encBytes r.body

/-- Parse an HTTP response envelope. -/
def deserialize_response (bs : Bytes) : Option HttpResponseEnv :=
  match decNat bs with
  | some (s, r1) =>
      match decBytes r1 with
      | some (re, r2) =>
          match decPairList r2 with
          | some (hs, r3) =>
              match decBytes r3 with
              | some (b, _) => some ⟨s, re, hs, b⟩
              | none => none
          | none => none
      | none => none
  | none => none

/-- Modelled from the spec: the `syft-rpc` request record — id, sender
datasite, target URL, method, headers, body, created and expires
timestamps (UTC milliseconds). -/
structure SyftRequest where
  id : Bytes
  sender : Bytes
  url : Bytes
  method : Bytes
  headers : List (Bytes × Bytes)
  body : Bytes
  created : Nat
  expires : Nat
deriving DecidableEq, Repr

/-- Modelled from the spec: the `syft-rpc` response record — id equal
to the request's, responder datasite, URL, status code, headers, body
and timestamps. -/
structure SyftResponse where
  id : Bytes
  sender : Bytes
  url : Bytes
  status_code : Nat
  headers : List (Bytes × Bytes)
  body : Bytes
  created : Nat
  expires : Nat
deriving DecidableEq, Repr

/-- Encode a request record as a length-prefixed field sequence in
fixed order. -/
def encodeSyftRequest (r : SyftRequest) : Bytes :=
  encBytes r.id ++ encBytes r.sender ++ encBytes r.url ++ encBytes r.method
    ++ encPairList r.headers ++ encBytes r.body ++ encNat r.created ++ encNat r.expires

/-- Decode a request record; unknown trailing fields are skipped. -/
def decodeSyftRequest (bs : Bytes) : Option SyftRequest :=
  match decBytes bs with
  | some (i, r1) =>
      match decBytes r1 with
      | some (se, r2) =>
          match decBytes r2 with
          | some (u, r3) =>
              match decBytes r3 with
              | some (m, r4) =>
                  match decPairList r4 with
                  | some (hs, r5) =>
                      match decBytes r5 with
                      | some (b, r6) =>
                          match decNat r6 with
                          | some (cr, r7) =>
                              match decNat r7 with
                              | some (ex, _) => some ⟨i, se, u, m, hs, b, cr, ex⟩
                              | none => none
                          | none => none
                      | none => none
                  | none => none
              | none => none
          | none => none
      | none => none
  | none => none

/-- Encode a response record. -/
def encodeSyftResponse (r : SyftResponse) : Bytes :=
  encBytes r.id ++ encBytes r.sender ++ encBytes r.url ++ encNat r.status_code
    ++ encPairList r.headers ++ encBytes r.body ++ encNat r.created ++ encNat r.expires

/-- Decode a response record. -/
def decodeSyftResponse (bs : Bytes) : Option SyftResponse :=
  match decBytes bs with
  | some (i, r1) =>
      match decBytes r1 with
      | some (se, r2) =>
          match decBytes r2 with
          | some (u, r3) =>
              match decNat r3 with
              | some (sc, r4) =>
                  match decPairList r4 with
                  | some (hs, r5) =>
                      match decBytes r5 with
                      | some (b, r6) =>
                          match decNat r6 with
                          | some (cr, r7) =>
                              match decNat r7 with
                              | some (ex, _) => some ⟨i, se, u, sc, hs, b, cr, ex⟩
                              | none => none
                          | none => none
                      | none => none
                  | none => none
              | none => none
          | none => none
      | none => none
  | none => none

theorem decNat_encNat_nil (n : Nat) : decNat (encNat n) = some (n, []) := by
  have := decNat_encNat n []
  simpa using this

theorem decBytes_encBytes_nil (b : Bytes) : decBytes (encBytes b) = some (b, []) := by
  have := decBytes_encBytes b []
  simpa using this

theorem decPairList_enc_nil (l : List (Bytes × Bytes)) :
    decPairList (encPairList l) = some (l, []) := by
  have := decPairList_enc l []
  simpa using this

/-- C3: Encoding round-trip — decoding the encoding is the identity on
request records, response records and both HTTP envelopes, preserving
method, URL, ordered duplicate-allowing headers, opaque body bytes,
status code and reason phrase bit-exactly. -/
theorem C3_encoding_round_trip :
    (∀ r : SyftRequest, decodeSyftRequest (encodeSyftRequest r) = some r)
    ∧ (∀ r : SyftResponse, decodeSyftResponse (encodeSyftResponse r) = some r)
    ∧ (∀ e : HttpRequestEnv, deserialize_request (serialize_request e) = some e)
    ∧ (∀ e : HttpResponseEnv, deserialize_response (serialize_response e) = some e) := by
  refine ⟨fun r => ?_, fun r => ?_, fun e => ?_, fun e => ?_⟩
  · simp only [encodeSyftRequest, List.append_assoc, decodeSyftRequest,
      decBytes_encBytes, decPairList_enc, decNat_encNat, decNat_encNat_nil]
  · simp only [encodeSyftResponse, List.append_assoc, decodeSyftResponse,
      decBytes_encBytes, decPairList_enc, decNat_encNat, decNat_encNat_nil]
  · simp only [serialize_request, List.append_assoc, deserialize_request,
      decBytes_encBytes, decPairList_enc, decPairList_enc_nil]
  · simp only [serialize_response, List.append_assoc, deserialize_response,
      decNat_encNat, decBytes_encBytes, decPairList_enc, decBytes_encBytes_nil]

/-! ### Body serialization (`syft-rpc` `serialize`) -/

/-- JSON values: null, booleans, integers, strings, arrays and
objects with an ordered field list. -/
inductive JsonVal where
  | jnull
  | jbool (b : Bool)
  | jnum (n : Int)
  | jstr (s : String)
  | jarr (xs : List JsonVal)
  | jobj (fields : List (String × JsonVal))

/-- Order on object fields by key. -/
def keyLe (p q : String × JsonVal) : Prop := p.1 ≤ q.1

instance : DecidableRel keyLe := fun p q => inferInstanceAs (Decidable (p.1 ≤ q.1))

instance : IsTotal (String × JsonVal) keyLe := ⟨fun p q => le_total p.1 q.1⟩

instance : IsTrans (String × JsonVal) keyLe := ⟨fun _ _ _ h1 h2 => le_trans h1 h2⟩

mutual
/-- Canonicalize a JSON value: recursively sort every object's fields
by key (canonical JSON has sorted keys). -/
def canonicalize : JsonVal → JsonVal
  | .jnull => .jnull
  | .jbool b => .jbool b
  | .jnum n => .jnum n
  | .jstr s => .jstr s
  | .jarr xs => .jarr (canonList xs)
  | .jobj fs => .jobj (List.insertionSort keyLe (canonFields fs))

/-- Canonicalize every element of an array. -/
def canonList : List JsonVal → List JsonVal
  | [] => []
  | x :: xs => canonicalize x :: canonList xs

/-- Canonicalize every field value of an object. -/
def canonFields : List (String × JsonVal) → List (String × JsonVal)
  | [] => []
  | (k, v) :: fs => (k, canonicalize v) :: canonFields fs
end

/-- Escape a character for a JSON string literal. -/
def escapeChar (c : Char) : String :=
  if c = '"' then "\\\"" else if c = '\\' then "\\\\" else String.singleton c

/-- Render a JSON string literal. -/
def renderJsonString (s : String) : String :=
  "\"" ++ String.join (s.toList.map escapeChar) ++ "\""

mutual
/-- Render a JSON value as text. -/
def renderJson : JsonVal → String
  | .jnull => "null"
  | .jbool true => "true"
  | .jbool false => "false"
  | .jnum n => toString n
  | .jstr s => renderJsonString s
  | .jarr xs => "[" ++ renderArr xs ++ "]"
  | .jobj fs => "\x7b" ++ renderObj fs ++ "\x7d"

/-- Render array elements, comma separated. -/
def renderArr : List JsonVal → String
  | [] => ""
  | [x] => renderJson x
  | x :: xs => renderJson x ++ "," ++ renderArr xs

/-- Render object fields, comma separated. -/
def renderObj : List (String × JsonVal) → String
  | [] => ""
  | [(k, v)] => renderJsonString k ++ ":" ++ renderJson v
  | (k, v) :: fs => renderJsonString k ++ ":" ++ renderJson v ++ "," ++ renderObj fs
end

/-- UTF-8 encoding of one code point. -/
def utf8Char (n : Nat) : Bytes :=
  if n < 128 then [n]
  else if n < 2048 then [192 + n / 64, 128 + n % 64]
  else if n < 65536 then [224 + n / 4096, 128 + n / 64 % 64, 128 + n % 64]
  else [240 + n / 262144, 128 + n / 4096 % 64, 128 + n / 64 % 64, 128 + n % 64]

/-- UTF-8 encoding of a string. -/
def utf8Encode (s : String) : Bytes :=
  (s.toList.map (fun c => utf8Char c.toNat)).flatten

/-- The runtime classes a Python body value can fall into, as the
serializer dispatches on them: raw bytes, a string, a structured typed
object (Pydantic model or dataclass, carried here by its JSON
representation), a JSON-able value (mapping, sequence, numeric, boolean
or null), or anything else. -/
inductive PyBody where
  | pyBytes (b : Bytes)
  | pyStr (s : String)
  | pyModel (jsonRepr : JsonVal)
  | pyJson (j : JsonVal)
  | pyOther

/-- The serializer's error kind. -/
inductive SerializeError where
  | unserializableBody
deriving DecidableEq, Repr

/-- Modelled from the spec: `syft_rpc.rpc.serialize` (the module is
absent from the tree) — bytes pass through, strings are UTF-8 encoded,
JSON-able values become canonical JSON with sorted keys, structured
typed objects become their JSON representation, and anything else is
the `UnserializableBody` error. -/
def serialize : PyBody → Except SerializeError Bytes
  | .pyBytes b => .ok b
  | .pyStr s => .ok (utf8Encode s)
  | .pyModel j => .ok (utf8Encode (renderJson j))
  | .pyJson j => .ok (utf8Encode (renderJson (canonicalize j)))
  | .pyOther => .error .unserializableBody

/-- The keys of a JSON object (empty for other values). -/
def objKeys : JsonVal → List String
  | .jobj fs => fs.map Prod.fst
  | _ => []

theorem canonFields_key_map (fs : List (String × JsonVal)) :
    (canonFields fs).map Prod.fst = fs.map Prod.fst := by
  induction fs with
  | nil => rfl
  | cons p rest ih =>
    cases p with
    | mk k v => simp [canonFields, ih]

/-- C5: Body serialization rules — bytes pass through unchanged,
strings are UTF-8 encoded, JSON-able values (mapping, sequence,
numeric, boolean, null) become canonical JSON whose object keys are
sorted at every top level, structured typed objects serialize to their
JSON representation, and any other value raises `UnserializableBody`. -/
theorem C5_body_serialization :
    (∀ b : Bytes, serialize (.pyBytes b) = .ok b)
    ∧ (∀ s : String, serialize (.pyStr s) = .ok (utf8Encode s))
    ∧ (∀ j : JsonVal, serialize (.pyJson j) = .ok (utf8Encode (renderJson (canonicalize j))))
    ∧ (∀ fs : List (String × JsonVal),
        List.Sorted (fun a b => a ≤ b) (objKeys (canonicalize (.jobj fs))))
    ∧ (∀ j : JsonVal, serialize (.pyModel j) = .ok (utf8Encode (renderJson j)))
    ∧ serialize .pyOther = .error .unserializableBody := by
  refine ⟨fun _ => rfl, fun _ => rfl, fun _ => rfl, fun fs => ?_, fun _ => rfl, rfl⟩
  show List.Sorted (fun a b => a ≤ b)
    ((List.insertionSort keyLe (canonFields fs)).map Prod.fst)
  have hs : List.Sorted keyLe (List.insertionSort keyLe (canonFields fs)) :=
    List.sorted_insertionSort keyLe (canonFields fs)
  exact List.Pairwise.map Prod.fst (fun a b h => h) hs

/-! ### Duration parsing (`parse_time_interval`) -/

/-- Numeric value of a decimal digit character. -/
def digitVal (c : Char) : Nat := c.toNat - 48

/-- The decimal digit character for a value below ten. -/
def digitChar (k : Nat) : Char :=
  ['0', '1', '2', '3', '4', '5', '6', '7', '8', '9'].getD k '0'

/-- Decimal digit characters of a natural number, most significant
first. -/
def natDecDigits (n : Nat) : List Char :=
  if h : n < 10 then [digitChar n]
  else natDecDigits (n / 10) ++ [digitChar (n % 10)]
termination_by n
decreasing_by exact Nat.div_lt_self (by omega) (by norm_num)

/-- Read a maximal run of decimal digits as a number; fails when the
input does not start with a digit. -/
def readNum (cs : List Char) : Option (Nat × List Char) :=
  let ds := cs.takeWhile Char.isDigit
  if ds.isEmpty then none
  else some (ds.foldl (fun acc c => acc * 10 + digitVal c) 0, cs.dropWhile Char.isDigit)

/-- Try to read one `<number><unit>` component; on a unit mismatch or a
missing number nothing is consumed. -/
def tryComp (u : Char) (cs : List Char) : Option Nat × List Char :=
  match readNum cs with
  | some (n, u' :: rest) => if u' = u then (some n, rest) else (none, cs)
  | _ => (none, cs)

/-- The value of an optional component, zero when absent. -/
def optVal : Option Nat → Nat
  | some n => n
  | none => 0

/-- Modelled from the spec: `parse_time_interval` over lowercased
characters — optional day, hour, minute and second components in
order, at least one required, nothing may remain. -/
def parseCore (cs : List Char) : Except String Nat :=
  let p1 := tryComp 'd' cs
  let p2 := tryComp 'h' p1.2
  let p3 := tryComp 'm' p2.2
  let p4 := tryComp 's' p3.2
  if p4.2.isEmpty && (p1.1.isSome || p2.1.isSome || p3.1.isSome || p4.1.isSome) then
    .ok (optVal p1.1 * 86400 + optVal p2.1 * 3600 + optVal p3.1 * 60 + optVal p4.1)
  else .error "invalid time interval"

/-- Modelled from the spec: the public entry lowercases its input, so
parsing is case-insensitive. -/
def parse_time_interval (s : String) : Except String Nat :=
  parseCore (s.toList.map Char.toLower)

theorem digitChar_isDigit (k : Nat) (h : k < 10) : (digitChar k).isDigit = true := by
  interval_cases k <;> decide

theorem digitVal_digitChar (k : Nat) (h : k < 10) : digitVal (digitChar k) = k := by
  interval_cases k <;> decide

theorem natDecDigits_all_digits (n : Nat) :
    ∀ c ∈ natDecDigits n, c.isDigit = true := by
  induction n using Nat.strong_induction_on with
  | _ n ih =>
    rw [natDecDigits]
    by_cases h : n < 10
    · simp only [dif_pos h, List.mem_singleton]
      rintro c rfl
      exact digitChar_isDigit n h
    · simp only [dif_neg h, List.mem_append, List.mem_singleton]
      rintro c (hc | rfl)
      · exact ih (n / 10) (Nat.div_lt_self (by omega) (by norm_num)) c hc
      · exact digitChar_isDigit (n % 10) (Nat.mod_lt n (by norm_num))

theorem natDecDigits_ne_nil (n : Nat) : natDecDigits n ≠ [] := by
  rw [natDecDigits]
  by_cases h : n < 10
  · simp [dif_pos h]
  · simp [dif_neg h]

theorem foldl_natDecDigits (n : Nat) :
    ∀ acc, (natDecDigits n).foldl (fun a c => a * 10 + digitVal c) acc
      = acc * 10 ^ (natDecDigits n).length + n := by
  induction n using Nat.strong_induction_on with
  | _ n ih =>
    intro acc
    rw [natDecDigits]
    by_cases h : n < 10
    · simp [dif_pos h, digitVal_digitChar n h]
    · rw [dif_neg h, List.foldl_append, List.length_append]
      simp only [List.foldl_cons, List.foldl_nil, List.length_cons, List.length_nil]
      rw [ih (n / 10) (Nat.div_lt_self (by omega) (by norm_num)) acc]
      rw [digitVal_digitChar (n % 10) (Nat.mod_lt n (by norm_num))]
      have hdm : n / 10 * 10 + n % 10 = n := by omega
      calc (acc * 10 ^ (natDecDigits (n / 10)).length + n / 10) * 10 + n % 10
          = acc * (10 ^ (natDecDigits (n / 10)).length * 10)
              + (n / 10 * 10 + n % 10) := by ring
        _ = acc * 10 ^ ((natDecDigits (n / 10)).length + (0 + 1)) + n := by
              rw [hdm, pow_succ]

theorem takeWhile_append_all {p : Char → Bool} (l1 l2 : List Char)
    (h : ∀ c ∈ l1, p c = true) :
    (l1 ++ l2).takeWhile p = l1 ++ l2.takeWhile p := by
  induction l1 with
  | nil => rfl
  | cons c rest ih =>
    simp only [List.cons_append, List.takeWhile_cons, h c (by simp), if_true]
    rw [ih (fun c hc => h c (by simp [hc]))]

theorem dropWhile_append_all {p : Char → Bool} (l1 l2 : List Char)
    (h : ∀ c ∈ l1, p c = true) :
    (l1 ++ l2).dropWhile p = l2.dropWhile p := by
  induction l1 with
  | nil => rfl
  | cons c rest ih =>
    simp only [List.cons_append, List.dropWhile_cons, h c (by simp), if_true]
    exact ih (fun c hc => h c (by simp [hc]))

theorem readNum_render (n : Nat) (rest : List Char)
    (hrest : ∀ c, rest.head? = some c → c.isDigit = false) :
    readNum (natDecDigits n ++ rest) = some (n, rest) := by
  have htail : rest.takeWhile Char.isDigit = [] := by
    cases rest with
    | nil => rfl
    | cons c cs =>
      simp [List.takeWhile_cons, hrest c rfl]
  have hdrop : rest.dropWhile Char.isDigit = rest := by
    cases rest with
    | nil => rfl
    | cons c cs =>
      simp [List.dropWhile_cons, hrest c rfl]
  unfold readNum
  rw [takeWhile_append_all _ _ (natDecDigits_all_digits n), htail,
    dropWhile_append_all _ _ (natDecDigits_all_digits n), hdrop]
  simp only [List.append_nil]
  rw [if_neg (by simpa [List.isEmpty_iff] using natDecDigits_ne_nil n)]
  have := foldl_natDecDigits n 0
  rw [this]
  simp

theorem tryComp_hit (u : Char) (n : Nat) (rest : List Char) (hu : u.isDigit = false) :
    tryComp u (natDecDigits n ++ u :: rest) = (some n, rest) := by
  unfold tryComp
  rw [readNum_render n (u :: rest) (by rintro c hc; cases hc; exact hu)]
  simp

theorem tryComp_skip (u u' : Char) (n : Nat) (rest : List Char)
    (hne : u' ≠ u) (hu' : u'.isDigit = false) :
    tryComp u (natDecDigits n ++ u' :: rest) = (none, natDecDigits n ++ u' :: rest) := by
  unfold tryComp
  rw [readNum_render n (u' :: rest) (by rintro c hc; cases hc; exact hu')]
  simp [hne]

theorem tryComp_nil (u : Char) : tryComp u [] = (none, []) := rfl

/-- Render an optional duration component. -/
def renderComp (u : Char) : Option Nat → List Char
  | some n => natDecDigits n ++ [u]
  | none => []

/-- Render a compound duration string from its four optional
components. -/
def renderDuration (d h m s : Option Nat) : List Char :=
  renderComp 'd' d ++ renderComp 'h' h ++ renderComp 'm' m ++ renderComp 's' s

/-- C6: Duration parser correctness — every compound duration string
parses to the sum of its components in seconds, `1d2h30m` gives 95400
seconds, parsing is case-insensitive, and the empty string (which has
no component) is rejected. -/
theorem C6_duration_parsing :
    (∀ d h m s : Option Nat,
        (d.isSome || h.isSome || m.isSome || s.isSome) = true →
        parseCore (renderDuration d h m s)
          = .ok (optVal d * 86400 + optVal h * 3600 + optVal m * 60 + optVal s))
    ∧ parse_time_interval "1d2h30m" = .ok 95400
    ∧ parse_time_interval "1D" = parse_time_interval "1d"
    ∧ parse_time_interval "" = .error "invalid time interval" := by
  refine ⟨fun d h m s hsome => ?_, by rfl, by rfl, by rfl⟩
  cases d <;> cases h <;> cases m <;> cases s <;>
    simp_all [renderDuration, renderComp, parseCore, optVal, List.append_assoc,
      tryComp_hit, tryComp_skip, tryComp_nil,
      tryComp_hit 'd' _ _ (by decide), tryComp_hit 'h' _ _ (by decide),
      tryComp_hit 'm' _ _ (by decide), tryComp_hit 's' _ _ (by decide)]

/-- A concrete duration: rendering and parsing 1 day, 2 hours and 30
minutes yields 95400 seconds. -/
theorem C6_duration_parsing_witness :
    parseCore (renderDuration (some 1) (some 2) (some 30) none) = .ok 95400 :=
  C6_duration_parsing.1 (some 1) (some 2) (some 30) none rfl

/-! ### Event server dispatch (`syft-event`) -/

/-- The artifacts existing alongside one request id, as counters of
how many times each sibling file was ever written, plus the number of
handler invocations. -/
structure IdState where
  responses : Nat
  rejections : Nat
  handlerRuns : Nat
deriving DecidableEq, Repr

/-- What a dispatch attempt would produce if it gets past the
duplicate check: a handler run emitting the response, or a rejection
marker (permission failure). -/
inductive DispatchOutcome where
  | wroteResponse
  | wroteRejection
deriving DecidableEq, Repr

/-- Modelled from the spec: one dispatch attempt of the event server
on a request id.  Step 2 of the dispatch pipeline short-circuits when
a sibling `.response` or rejection marker already exists (duplicate
suppression); otherwise the attempt either invokes the handler and
writes the response, or writes the rejection marker. -/
def dispatch (s : IdState) (o : DispatchOutcome) : IdState :=
  if s.responses > 0 || s.rejections > 0 then s
  else
    match o with
    | .wroteResponse =>
        { s with responses := s.responses + 1, handlerRuns := s.handlerRuns + 1 }
    | .wroteRejection => { s with rejections := s.rejections + 1 }

/-- Before any dispatch, the request has no sibling artifacts. -/
def initialIdState : IdState := ⟨0, 0, 0⟩

/-- Every reachable state of one request id is obtained by running a
sequence of dispatch attempts from the initial state. -/
def runDispatches (os : List DispatchOutcome) : IdState :=
  os.foldl dispatch initialIdState

theorem dispatch_preserves (s : IdState) (o : DispatchOutcome)
    (h : s.responses + s.rejections ≤ 1) :
    (dispatch s o).responses + (dispatch s o).rejections ≤ 1 := by
  unfold dispatch
  by_cases hc : s.responses > 0 || s.rejections > 0
  · rw [if_pos hc]; exact h
  · rw [if_neg hc]
    simp only [Bool.or_eq_true, decide_eq_true_eq, not_or] at hc
    cases o <;> simp <;> omega

theorem runDispatches_invariant (os : List DispatchOutcome) :
    (runDispatches os).responses + (runDispatches os).rejections ≤ 1 := by
  have key : ∀ (l : List DispatchOutcome) (s : IdState),
      s.responses + s.rejections ≤ 1 →
      (l.foldl dispatch s).responses + (l.foldl dispatch s).rejections ≤ 1 := by
    intro l
    induction l with
    | nil => intro s h; exact h
    | cons o rest ih =>
      intro s h
      exact ih (dispatch s o) (dispatch_preserves s o h)
  exact key os initialIdState (by simp [initialIdState])

/-- C4: At-most-once dispatch — in every reachable state at most one
`.response` and at most one rejection marker exists alongside a
request id, and a dispatch attempt that observes an existing sibling
response or rejection marker exits without invoking the handler or
changing anything. -/
theorem C4_at_most_once_dispatch :
    (∀ os : List DispatchOutcome,
        (runDispatches os).responses ≤ 1 ∧ (runDispatches os).rejections ≤ 1)
    ∧ (∀ (s : IdState) (o : DispatchOutcome),
        s.responses > 0 ∨ s.rejections > 0 → dispatch s o = s) := by
  constructor
  · intro os
    have h := runDispatches_invariant os
    omega
  · intro s o h
    unfold dispatch
    rw [if_pos (by simpa [Bool.or_eq_true, decide_eq_true_eq] using h)]

/-- A concrete duplicate attempt: with a response already present, a
second dispatch leaves the state untouched and runs no handler. -/
theorem C4_at_most_once_dispatch_witness :
    dispatch ⟨1, 0, 1⟩ .wroteResponse = ⟨1, 0, 1⟩ :=
  C4_at_most_once_dispatch.2 ⟨1, 0, 1⟩ .wroteResponse (Or.inl (by decide))

/-! ### Futures (`syft-rpc` `SyftFuture`) -/

/-- The client-side handle of an outstanding request. -/
structure FutureHandle where
  id : Bytes
  url : Bytes
  expires : Nat
deriving DecidableEq, Repr

/-- What one poll of the expected response location observes: the
response file if present, the rejection marker, and the clock. -/
structure PollObs where
  responseFile : Option SyftResponse
  rejectionMarker : Bool
  now : Nat

/-- The terminal outcome of waiting on a future. -/
inductive WaitResult where
  | delivered (r : SyftResponse)
  | rejectedOutcome
  | expiredOutcome
deriving DecidableEq, Repr

/-- The error raised when the caller-supplied timeout elapses. -/
inductive SyftTimeout where
  | timedOut
deriving DecidableEq, Repr

/-- Modelled from the spec: the non-blocking `resolve` — a present
response file resolves it; a rejection marker synthesizes a rejected
response; a passed expiry with no file synthesizes an expired
response; otherwise the request is still pending and `None` is
returned. -/
def resolveFuture (f : FutureHandle) (o : PollObs) : Option WaitResult :=
  match o.responseFile with
  | some r => some (.delivered r)
  | none =>
      if o.rejectionMarker then some .rejectedOutcome
      else if f.expires < o.now then some .expiredOutcome
      else none

/-- Modelled from the spec: `wait` polls the response path; it returns
as soon as a poll resolves, and raises `SyftTimeout` once the
caller-supplied deadline elapses while still pending. -/
def waitFuture (f : FutureHandle) (deadline : Nat) :
    List PollObs → Except SyftTimeout WaitResult
  | [] => .error .timedOut
  | o :: os =>
      match resolveFuture f o with
      | some r => .ok r
      | none => if deadline ≤ o.now then .error .timedOut else waitFuture f deadline os

/-- C7: Future.wait outcome trichotomy — a poll past expiry with no
response file (and no marker) yields the synthesized expired outcome;
a poll seeing the rejection marker (and no response file) yields the
synthesized rejected outcome; if every poll leaves the request
pending, `SyftTimeout` is raised; and the non-blocking resolve returns
`None` while still pending. -/
theorem C7_wait_trichotomy :
    (∀ (f : FutureHandle) (deadline : Nat) (o : PollObs) (os : List PollObs),
        o.responseFile = none → o.rejectionMarker = false → f.expires < o.now →
        waitFuture f deadline (o :: os) = .ok .expiredOutcome)
    ∧ (∀ (f : FutureHandle) (deadline : Nat) (o : PollObs) (os : List PollObs),
        o.responseFile = none → o.rejectionMarker = true →
        waitFuture f deadline (o :: os) = .ok .rejectedOutcome)
    ∧ (∀ (f : FutureHandle) (deadline : Nat) (os : List PollObs),
        (∀ o ∈ os, resolveFuture f o = none) →
        waitFuture f deadline os = .error .timedOut)
    ∧ (∀ (f : FutureHandle) (o : PollObs),
        o.responseFile = none → o.rejectionMarker = false → o.now ≤ f.expires →
        resolveFuture f o = none) := by
  refine ⟨?_, ?_, ?_, ?_⟩
  · intro f deadline o os hresp hrej hexp
    simp [waitFuture, resolveFuture, hresp, hrej, hexp]
  · intro f deadline o os hresp hrej
    simp [waitFuture, resolveFuture, hresp, hrej]
  · intro f deadline os hpending
    induction os with
    | nil => rfl
    | cons o rest ih =>
      simp only [waitFuture, hpending o (by simp)]
      split <;> [rfl; exact ih (fun o ho => hpending o (by simp [ho]))]
  · intro f o hresp hrej hnow
    simp [resolveFuture, hresp, hrej, Nat.not_lt.mpr hnow]

/-- Concrete instances of the three synthesized outcomes and of a
pending resolve. -/
theorem C7_wait_trichotomy_witness :
    waitFuture ⟨[1], [2], 10⟩ 100 [⟨none, false, 11⟩] = .ok .expiredOutcome
    ∧ waitFuture ⟨[1], [2], 10⟩ 100 [⟨none, true, 5⟩] = .ok .rejectedOutcome
    ∧ waitFuture ⟨[1], [2], 10⟩ 100 [] = .error .timedOut
    ∧ resolveFuture ⟨[1], [2], 10⟩ ⟨none, false, 5⟩ = none :=
  ⟨C7_wait_trichotomy.1 ⟨[1], [2], 10⟩ 100 ⟨none, false, 11⟩ [] rfl rfl (by decide),
   C7_wait_trichotomy.2.1 ⟨[1], [2], 10⟩ 100 ⟨none, true, 5⟩ [] rfl rfl,
   C7_wait_trichotomy.2.2.1 ⟨[1], [2], 10⟩ 100 [] (by intro o ho; cases ho),
   C7_wait_trichotomy.2.2.2 ⟨[1], [2], 10⟩ ⟨none, false, 5⟩ rfl rfl (by decide)⟩

/-! ### Request file layout (`syft-rpc` file locations) -/

/-- Modelled from the spec: the RPC directory of an app on a
datasite, relative to the workspace. -/
def rpcDir (datasite app : String) : List String :=
  ["datasites", datasite, "app_data", app, "rpc"]

/-- Modelled from the spec: the directory in which a request from
`sender` to an endpoint lands — the endpoint directory's per-sender
subdirectory, keyed by the sender datasite. -/
def requestDir (datasite app : String) (endpoint : List String) (sender : String) :
    List String :=
  rpcDir datasite app ++ endpoint ++ [sender]

/-- The path of the request file itself. -/
def requestFilePath (datasite app : String) (endpoint : List String) (sender id : String) :
    List String :=
  requestDir datasite app endpoint sender ++ [id ++ ".request"]

/-- The path of the matching response file. -/
def responseFilePath (datasite app : String) (endpoint : List String) (sender id : String) :
    List String :=
  requestDir datasite app endpoint sender ++ [id ++ ".response"]

/-- The path of the rejection marker. -/
def rejectionFilePath (datasite app : String) (endpoint : List String) (sender id : String) :
    List String :=
  requestDir datasite app endpoint sender ++ [id ++ ".syftrejected.request"]

/-- C8: Per-sender request path layout — the request file lives at
`<rpc-dir>/<endpoint>/<sender>/<id>.request`, the response and the
rejection marker live in the same directory under the same id, and the
per-sender path segment is always present, immediately above the file
name. -/
theorem C8_per_sender_layout (datasite app : String) (endpoint : List String)
    (sender id : String) :
    requestFilePath datasite app endpoint sender id
        = rpcDir datasite app ++ endpoint ++ [sender] ++ [id ++ ".request"]
    ∧ (requestFilePath datasite app endpoint sender id).dropLast
        = requestDir datasite app endpoint sender
    ∧ (responseFilePath datasite app endpoint sender id).dropLast
        = requestDir datasite app endpoint sender
    ∧ (rejectionFilePath datasite app endpoint sender id).dropLast
        = requestDir datasite app endpoint sender
    ∧ (requestFilePath datasite app endpoint sender id).getLast?
        = some (id ++ ".request")
    ∧ sender ∈ requestFilePath datasite app endpoint sender id := by
  refine ⟨rfl, ?_, ?_, ?_, ?_, ?_⟩
  · simp [requestFilePath]
  · simp [responseFilePath]
  · simp [rejectionFilePath]
  · simp [requestFilePath]
  · simp [requestFilePath, requestDir]

/-! ### Request caching (`syft-rpc` `send(cache=True)`) -/

/-- The cache fingerprint input: method, canonical URL, canonical
headers and body.  The hash is modelled by the tuple itself. -/
structure Fingerprint where
  method : Bytes
  url : Bytes
  headers : List (Bytes × Bytes)
  body : Bytes
deriving DecidableEq, Repr

/-- One row of the local future store's cache index. -/
structure StoreEntry where
  key : Fingerprint
  id : Bytes
  expires : Nat
deriving DecidableEq, Repr

/-- An unexpired cache hit for a fingerprint. -/
def lookupEntry (store : List StoreEntry) (fp : Fingerprint) (now : Nat) :
    Option StoreEntry :=
  store.find? (fun e => decide (e.key = fp) && decide (now < e.expires))

/-- What a call to `send` produced: the id the returned future is
bound to, the store afterwards, and whether a new request record was
created. -/
structure SendResult where
  futureId : Bytes
  store : List StoreEntry
  createdNew : Bool
deriving DecidableEq, Repr

/-- Modelled from the spec: `send` with caching enabled — compute the
fingerprint; on an unexpired hit return a future bound to the existing
id without creating a new request record; otherwise create a new
record under a fresh id and register it. -/
def sendCached (store : List StoreEntry) (fp : Fingerprint) (now : Nat)
    (freshId : Bytes) (expiry : Nat) : SendResult :=
  match lookupEntry store fp now with
  | some e => ⟨e.id, store, false⟩
  | none => ⟨freshId, ⟨fp, freshId, now + expiry⟩ :: store, true⟩

/-- C9: Caching idempotence of send — when a first cached call creates
a request and a second cached call arrives with the identical
fingerprint before that request expires, the second call returns a
future bound to the same id, creates no new request record and leaves
the store unchanged. -/
theorem C9_cache_idempotent (store : List StoreEntry) (fp : Fingerprint)
    (now1 : Nat) (fresh1 : Bytes) (expiry : Nat) (now2 : Nat) (fresh2 : Bytes)
    (hmiss : lookupEntry store fp now1 = none)
    (hfresh : now2 < now1 + expiry) :
    (sendCached (sendCached store fp now1 fresh1 expiry).store fp now2 fresh2 expiry).futureId
        = (sendCached store fp now1 fresh1 expiry).futureId
    ∧ (sendCached (sendCached store fp now1 fresh1 expiry).store fp now2 fresh2 expiry).createdNew
        = false
    ∧ (sendCached (sendCached store fp now1 fresh1 expiry).store fp now2 fresh2 expiry).store
        = (sendCached store fp now1 fresh1 expiry).store := by
  have h1 : sendCached store fp now1 fresh1 expiry
      = ⟨fresh1, ⟨fp, fresh1, now1 + expiry⟩ :: store, true⟩ := by
    unfold sendCached
    rw [hmiss]
  have h2 : lookupEntry (⟨fp, fresh1, now1 + expiry⟩ :: store) fp now2
      = some ⟨fp, fresh1, now1 + expiry⟩ := by
    unfold lookupEntry
    apply List.find?_cons_of_pos
    simp [hfresh]
  rw [h1]
  unfold sendCached
  rw [h2]
  exact ⟨rfl, rfl, rfl⟩

/-- A concrete pair of cached sends: the second call reuses the first
call's id on an empty initial store. -/
theorem C9_cache_idempotent_witness :
    (sendCached (sendCached [] ⟨[1], [2], [], []⟩ 0 [7] 10).store
        ⟨[1], [2], [], []⟩ 5 [8] 10).futureId
      = (sendCached [] ⟨[1], [2], [], []⟩ 0 [7] 10).futureId :=
  (C9_cache_idempotent [] ⟨[1], [2], [], []⟩ 0 [7] 10 5 [8] rfl (by decide)).1

/-! ### HTTP bridge endpoint filtering (`syft-http-bridge`) -/

/-- The endpoint filter configuration of a bridge instance. -/
structure BridgeConfig where
  allowedEndpoints : Option (List String)
  disallowedEndpoints : Option (List String)
deriving Repr

/-- Modelled from the spec: the bridge's endpoint filter — with an
allow-list only listed endpoints pass; with a deny-list listed
endpoints are blocked; with neither, everything passes. -/
def endpointAllowed (cfg : BridgeConfig) (endpoint : String) : Bool :=
  (match cfg.allowedEndpoints with
   | some allowed => allowed.contains endpoint
   | none => true)
  && (match cfg.disallowedEndpoints with
      | some dis => !dis.contains endpoint
      | none => true)

/-- What the bridge does with an incoming request: forward it to the
upstream HTTP client or block it. -/
inductive BridgeAction where
  | forwardUpstream (endpoint : String)
  | blocked
deriving DecidableEq, Repr

/-- Modelled from the spec: the bridge handler forwards a request to
the upstream HTTP client exactly when the endpoint filter passes. -/
def handleBridgeRequest (cfg : BridgeConfig) (endpoint : String) : BridgeAction :=
  if endpointAllowed cfg endpoint then .forwardUpstream endpoint else .blocked

/-- C10: Bridge endpoint filtering — when the bridge is constructed
with `allowed_endpoints`, only requests whose endpoint is in that list
are forwarded upstream; when constructed with `disallowed_endpoints`,
a request whose endpoint is in that list is blocked and never
forwarded. -/
theorem C10_endpoint_filtering :
    (∀ (cfg : BridgeConfig) (ep : String) (allowed : List String),
        cfg.allowedEndpoints = some allowed →
        handleBridgeRequest cfg ep = .forwardUpstream ep →
        allowed.contains ep = true)
    ∧ (∀ (cfg : BridgeConfig) (ep : String) (dis : List String),
        cfg.disallowedEndpoints = some dis →
        dis.contains ep = true →
        handleBridgeRequest cfg ep = .blocked) := by
  constructor
  · intro cfg ep allowed hcfg hfwd
    unfold handleBridgeRequest at hfwd
    by_cases hall : endpointAllowed cfg ep = true
    · have := hall
      unfold endpointAllowed at this
      rw [hcfg] at this
      exact (Bool.and_eq_true _ _).mp this |>.1
    · rw [if_neg hall] at hfwd
      cases hfwd
  · intro cfg ep dis hcfg hmem
    have hm : ep ∈ dis := by simpa using hmem
    have hfail : endpointAllowed cfg ep = false := by
      unfold endpointAllowed
      rw [hcfg]
      simp [hm]
    unfold handleBridgeRequest
    simp only [hfail, Bool.false_eq_true, if_false]

/-- Concrete filtering decisions: an allow-listed endpoint implies
membership, and a deny-listed endpoint is blocked. -/
theorem C10_endpoint_filtering_witness :
    (["/hello"].contains "/hello") = true
    ∧ handleBridgeRequest ⟨none, some ["/admin"]⟩ "/admin" = .blocked :=
  ⟨C10_endpoint_filtering.1 ⟨some ["/hello"], none⟩ "/hello" ["/hello"] rfl rfl,
   C10_endpoint_filtering.2 ⟨none, some ["/admin"]⟩ "/admin" ["/admin"] rfl rfl⟩

end SyftExtras
